import Mathlib

/-!
Shallow embedding of `pico-map.py`, a linker-map summariser, together with
theorems settling the specification claims about it.

Modelling conventions:
* A text line is a `List Char` (`Line`); concrete lines are written with
  `str`, which takes the character data of a string literal.  Input lines
  are taken after Python's `line.strip('\n')`, i.e. newline-free.
* Python `int(s, 16)` is `pyIntHex`; it returns `none` where Python raises
  `ValueError` (numeric-literal underscores, which never occur in map
  files, are not modelled).
* Python `str.split(None, maxsplit)` is `pySplit`.
* Python exceptions that abort the run are the `Res.err` results; the two
  kinds that can occur in the body parser are `ValueError` (bad hex) and
  `AttributeError` (calling `.startswith` on `None`).
* The module-level mutable state (`mem_list`, `file_list`) and the loop
  variables (`cur_sec`, `split_line`) of `main` are threaded explicitly as
  `BodyState`; warnings printed for discarded fragments are collected in
  `warnings`.  Python dicts preserve insertion order, so both dicts are
  association lists with new keys appended at the end.
-/

/-- A text line, as the list of its characters. -/
abbrev Line := List Char

/-- Character data of a string literal, used to write concrete lines. -/
def str (s : String) : Line := s.data

/-- Python whitespace for `str.split()`/`str.strip()` (ASCII subset). -/
def isPySpace (c : Char) : Bool :=
  c = ' ' || c = '\t' || c = '\n' || c = '\x0d' || c = '\x0b' || c = '\x0c'

/-- Drop leading whitespace. -/
def dropWS : Line → Line
  | [] => []
  | c :: cs => if isPySpace c then dropWS cs else c :: cs

/-- Python `s.strip()`: drop whitespace at both ends. -/
def pyStrip (s : Line) : Line := ((dropWS ((dropWS s).reverse)).reverse)

/-- Python `p + s` prefix test `s.startswith(p)`, on character lists. -/
def startswith : Line → Line → Bool
  | [], _ => true
  | _ :: _, [] => false
  | p :: ps, c :: cs => p == c && startswith ps cs

/-- Core of Python `s.split(None, maxsplit)`.  The first argument is fuel
(any value at least `s.length + 1` gives the real result): each step
consumes at least one character.  When `maxsplit` hits zero the remainder
(from its first non-whitespace character, verbatim to the end) is the last
chunk, exactly as in Python. -/
def pySplitCore : Nat → Nat → Line → List Line
  | 0, _, _ => []
  | fuel + 1, maxsplit, s =>
    match dropWS s with
    | [] => []
    | c :: cs =>
      match maxsplit with
      | 0 => [c :: cs]
      | m + 1 =>
        ((c :: cs).takeWhile (fun x => !isPySpace x)) ::
          pySplitCore fuel m ((c :: cs).dropWhile (fun x => !isPySpace x))

/-- Python `s.split(None, maxsplit)`. -/
def pySplit (maxsplit : Nat) (s : Line) : List Line :=
  pySplitCore (s.length + 1) maxsplit s

/-- Value of one hexadecimal digit. -/
def hexVal (c : Char) : Option Nat :=
  if '0' ≤ c ∧ c ≤ '9' then some (c.toNat - '0'.toNat)
  else if 'a' ≤ c ∧ c ≤ 'f' then some (c.toNat - 'a'.toNat + 10)
  else if 'A' ≤ c ∧ c ≤ 'F' then some (c.toNat - 'A'.toNat + 10)
  else none

/-- Parse a nonempty run of hex digits. -/
def hexDigits : Line → Option Nat
  | [] => none
  | [c] => hexVal c
  | c :: cs =>
    match hexVal c, hexDigits cs with
    | some v, some rest => some (v * 16 ^ cs.length + rest)
    | _, _ => none

/-- Python `int(s, 16)`: optional surrounding whitespace, optional sign,
optional `0x`/`0X` prefix, then a nonempty run of hex digits.  `none`
models the `ValueError` Python raises otherwise. -/
def pyIntHex (s : Line) : Option Int :=
  let t := pyStrip s
  let (neg, t) :=
    match t with
    | '-' :: r => (true, r)
    | '+' :: r => (false, r)
    | r => (false, r)
  let t :=
    match t with
    | '0' :: 'x' :: r => r
    | '0' :: 'X' :: r => r
    | _ => t
  match hexDigits t with
  | none => none
  | some n => some (if neg then -(n : Int) else (n : Int))

/-- `i`-th element of a token list (in-bounds at every use site). -/
def nth (l : List Line) (i : Nat) : Line := l.getD i []

/-- Python `part[-k]`: `k`-th token from the end. -/
def nthLast (l : List Line) (k : Nat) : Line := nth l (l.length - k)

/-- Python `t in part`: token membership. -/
def hasTok (part : List Line) (t : Line) : Bool := part.any (fun x => x == t)

/-! ## Data model: `SrcFile`, `Section`, `Memory` (classes of the script) -/

/-- Per-source byte counters (`class SrcFile`). -/
structure SrcFile where
  code : Int
  rodata : Int
  data : Int
  bss : Int
  etc : Int
deriving DecidableEq

/-- `SrcFile.__init__`: all counters zero. -/
def SrcFile.init : SrcFile := ⟨0, 0, 0, 0, 0⟩

/-- `SrcFile.total`. -/
def SrcFile.total (f : SrcFile) : Int :=
  f.code + f.rodata + f.data + f.bss + f.etc

/-- `SrcFile.add`: classify a section name by prefix and accumulate.  The
Python method is only ever reached with a non-`None` section name (the
`None` case raises `AttributeError` before the first prefix test and is
modelled at the call site, in `addToFile`). -/
def SrcFile.add (f : SrcFile) (sec : Line) (size : Int) : SrcFile :=
  if startswith (str ".text") sec = true then { f with code := f.code + size }
  else if startswith (str ".rodata") sec = true then { f with rodata := f.rodata + size }
  else if startswith (str ".data") sec = true then { f with data := f.data + size }
  else if startswith (str ".bss") sec = true then { f with bss := f.bss + size }
  else if (startswith (str ".comment") sec || startswith (str ".debug") sec ||
      startswith (str ".ARM.attributes") sec) = true then f
  else { f with etc := f.etc + size }

/-- Accumulated placement of one section inside one region (`class Section`). -/
structure Section where
  size : Int
  start : Int
deriving DecidableEq

/-- `Section.__init__`. -/
def Section.init : Section := ⟨0, 0⟩

/-- `Section.add`: accumulate size, remember the last start address. -/
def Section.add (s : Section) (start size : Int) : Section :=
  { size := s.size + size, start := start }

/-- Association-list lookup, modelling Python dict access (dicts keep
insertion order; keys are unique). -/
def lookupA {α : Type} : List (Line × α) → Line → Option α
  | [], _ => none
  | (k, v) :: rest, key => if k = key then some v else lookupA rest key

/-- Update the (first) entry with the given key in place. -/
def updateA {α : Type} : List (Line × α) → Line → (α → α) → List (Line × α)
  | [], _, _ => []
  | (k, v) :: rest, key, f =>
    if k = key then (k, f v) :: rest else (k, v) :: updateA rest key f

/-- A declared memory region (`class Memory`). -/
structure Memory where
  name : Line
  start : Int
  end_ : Int
  total : Int
  use : Int
  sections : List (Line × Section)
deriving DecidableEq

/-- `Memory.__init__`: `end = start + length - 1`, `total = length`,
`use = 0`, empty section dict. -/
def Memory.init (name : Line) (start length : Int) : Memory :=
  ⟨name, start, start + length - 1, length, 0, []⟩

/-- `Memory.add`: create the section's `Placement` on first use, then
accumulate `size` into it and into the region's `use` counter. -/
def Memory.add (m : Memory) (section_name : Line) (start size : Int) : Memory :=
  let secs :=
    if (lookupA m.sections section_name).isSome then m.sections
    else m.sections ++ [(section_name, Section.init)]
  { m with
    sections := updateA secs section_name (fun s => Section.add s start size),
    use := m.use + size }

/-- `find_mem`: first region with the given name, if any. -/
def find_mem : List Memory → Line → Option Memory
  | [], _ => none
  | m :: rest, name => if m.name = name then some m else find_mem rest name

/-- Containment test of `add_section_to_mem`'s loop:
`start >= mem.start and start + size - 1 <= mem.end`. -/
def memContains (m : Memory) (start size : Int) : Bool :=
  decide (m.start ≤ start) && decide (start + size - 1 ≤ m.end_)

/-- `add_section_to_mem`: give the attribution to the first region (in
registration order) whose range contains `[start, start+size-1]`; drop it
when no region does.  The global `mem_list` is threaded as the argument
and result. -/
def add_section_to_mem : List Memory → Line → Int → Int → List Memory
  | [], _, _, _ => []
  | m :: rest, sec, start, size =>
    if memContains m start size then m.add sec start size :: rest
    else m :: add_section_to_mem rest sec start size

/-! ## Body parser -/

/-- The two exception kinds the body parser can raise. -/
inductive Err where
  | valueError
  | attributeError
deriving DecidableEq

/-- Result of a computation that can abort with an uncaught exception. -/
inductive Res (α : Type) where
  | ok (val : α)
  | err (e : Err)
deriving DecidableEq

/-- Whether a result is a normal completion. -/
def Res.isOk {α : Type} : Res α → Bool
  | .ok _ => true
  | .err _ => false

/-- State threaded through the `Linker script and memory map` loop. -/
structure BodyState where
  mem_list : List Memory
  file_list : List (Line × SrcFile)
  cur_sec : Option Line
  split_line : Option Line
  warnings : List Line
deriving DecidableEq

/-- The sixteen leading spaces that mark a continuation line
(`' ' * 16`). -/
def spaces16 : Line := List.replicate 16 ' '

/-- First per-line step (`### check section size`): a line starting with
`.` and splitting into at least three tokens has its second and third
tokens parsed as hex start and size (raising `ValueError` on bad hex); a
positive size is forwarded to the region registry. -/
def sectionSizePhase (st : BodyState) (line : Line) : Res BodyState :=
  if startswith (str ".") line = true then
    let part := pySplit 3 line
    if 3 ≤ part.length then
      match pyIntHex (nth part 1) with
      | none => .err .valueError
      | some start =>
        match pyIntHex (nth part 2) with
        | none => .err .valueError
        | some size =>
          if 0 < size then
            .ok { st with mem_list := add_section_to_mem st.mem_list (nth part 0) start size }
          else .ok st
    else .ok st
  else .ok st

/-- Second per-line step: glue a pending fragment to a continuation line
(at least sixteen leading spaces), or discard it with a warning; the
pending fragment is cleared either way. -/
def gluePhase (st : BodyState) (line : Line) : Line × BodyState :=
  match st.split_line with
  | none => (line, st)
  | some sl =>
    if startswith spaces16 line = true then (sl ++ line, { st with split_line := none })
    else (line, { st with split_line := none, warnings := st.warnings ++ [sl] })

/-- Dict update of `file_list[source]` followed by
`file_list[source].add(cur_sec, size)`.  When `cur_sec` is `None`, Python
raises `AttributeError` inside `SrcFile.add` (the freshly inserted empty
account is unobservable because the run aborts). -/
def addToFile (st : BodyState) (source : Line) (size : Int) : Res BodyState :=
  let fl :=
    if (lookupA st.file_list source).isSome then st.file_list
    else st.file_list ++ [(source, SrcFile.init)]
  match st.cur_sec with
  | none => .err .attributeError
  | some sec =>
    .ok { st with file_list := updateA fl source (fun f => SrcFile.add f sec size) }

/-- Third per-line step: dispatch on the (possibly glued) line shape —
section start, truncated record, allocation record (normal or `*fill*`),
or nothing. -/
def dispatchPhase (st : BodyState) (line : Line) : Res BodyState :=
  if (startswith (str ".") line || startswith (str " .") line ||
      startswith (str " *fill*") line) = true then
    let part := pySplit 3 line
    if startswith (str ".") line = true then
      .ok { st with cur_sec := some (nth part 0) }
    else if part.length = 1 ∧ 14 < line.length then
      .ok { st with split_line := some line }
    else if 3 ≤ part.length ∧ hasTok part (str "=") = false ∧
        hasTok part (str "before") = false then
      if nth part 0 = str "*fill*" then
        match pyIntHex (nthLast part 1) with
        | none => .err .valueError
        | some size => addToFile st (str "*fill*") size
      else
        match pyIntHex (nthLast part 2) with
        | none => .err .valueError
        | some size =>
          match pyIntHex (nthLast part 3) with
          | none => .err .valueError
          | some _ => addToFile st (nthLast part 1) size
    else .ok st
  else .ok st

/-- One iteration of the body loop: the three steps above, in the order
the script performs them. -/
def stepLine (st : BodyState) (line : Line) : Res BodyState :=
  match sectionSizePhase st line with
  | .err e => .err e
  | .ok st1 =>
    let p := gluePhase st1 line
    dispatchPhase p.2 p.1

/-- The body loop over the remaining lines. -/
def runLines (st : BodyState) : List Line → Res BodyState
  | [] => .ok st
  | l :: ls =>
    match stepLine st l with
    | .ok st1 => runLines st1 ls
    | .err e => .err e

/-! ## Configuration parser, reconciler, full pipeline -/

/-- One line of the `Memory Configuration` block: `<name> <hex-start>
<hex-length> ...`, appended to the registry unless malformed (the
`try/except: continue`) or named with a leading `*`. -/
def parseConfigLine (mems : List Memory) (line : Line) : List Memory :=
  let part := pySplit 4 line
  if part.length < 3 then mems
  else
    match pyIntHex (nth part 1) with
    | none => mems
    | some start =>
      match pyIntHex (nth part 2) with
      | none => mems
      | some length =>
        if startswith (str "*") (nth part 0) = true then mems
        else mems ++ [Memory.init (nth part 0) start length]

/-- The `Memory Configuration` loop: parse lines until the
`Linker script and memory map` header, returning the registry and the
remaining lines. -/
def parseConfig (mems : List Memory) : List Line → List Memory × List Line
  | [] => (mems, [])
  | l :: ls =>
    if pyStrip l = str "Linker script and memory map" then (mems, ls)
    else parseConfig (parseConfigLine mems l) ls

/-- The initial skip loop: drop lines up to and including the
`Memory Configuration` header. -/
def skipToConfig : List Line → List Line
  | [] => []
  | l :: ls => if pyStrip l = str "Memory Configuration" then ls else skipToConfig ls

/-- State at the start of the body loop: parsed regions, empty account
table, `cur_sec = None`, `split_line = None`. -/
def initState (mems : List Memory) : BodyState :=
  ⟨mems, [], none, none, []⟩

/-- The whole pipeline up to (and excluding) the reconciliation step. -/
def runMap (lines : List Line) : Res BodyState :=
  let rest := skipToConfig lines
  let p := parseConfig [] rest
  runLines (initState p.1) p.2

/-- The reconciliation step (`### Append '.data' section to FLASH area`):
look up RAM's `.data` placement and the FLASH region, and hand a
`.data(image)` attribution of that size, starting at `FLASH.start +
FLASH.use`, to the ordinary attribution query.  Any lookup failure is
swallowed by the `try/except: pass` and leaves the state unchanged. -/
def reconcile (st : BodyState) : BodyState :=
  match find_mem st.mem_list (str "RAM") with
  | none => st
  | some ram =>
    match lookupA ram.sections (str ".data") with
    | none => st
    | some ram_data =>
      match find_mem st.mem_list (str "FLASH") with
      | none => st
      | some rom =>
        { st with
          mem_list :=
            add_section_to_mem st.mem_list (str ".data(image)")
              (rom.start + rom.use) ram_data.size }

/-- The whole pipeline including reconciliation. -/
def runMapReconciled (lines : List Line) : Res BodyState :=
  match runMap lines with
  | .ok st => .ok (reconcile st)
  | .err e => .err e

/-- Extract the final state of a completed run (arbitrary default on an
aborted run; used only to phrase closed statements about runs that are
separately shown to complete). -/
def getOk (r : Res BodyState) : BodyState :=
  match r with
  | .ok st => st
  | .err _ => initState []

/-! ## Reporter -/

/-- The command-line sort flags. -/
structure Args where
  total : Bool
  code : Bool
  bss : Bool
  data : Bool
  rodata : Bool
deriving DecidableEq

/-- Stable insertion of `x` into a list ascending by `key`: `x` goes in
front of the first element with a key not smaller than its own. -/
def sinsert (key : Line → Int) (x : Line) : List Line → List Line
  | [] => [x]
  | y :: ys => if key x ≤ key y then x :: y :: ys else y :: sinsert key x ys

/-- Stable ascending sort by `key`.  Python's `list.sort(key=...)` is a
stable ascending sort; any stable ascending sort computes the same list,
so this insertion sort is an exact model of it. -/
def ssort (key : Line → Int) : List Line → List Line
  | [] => []
  | x :: xs => sinsert key x (ssort key xs)

/-- The category counter a source is sorted on: `file_list[x].<field>`. -/
def keyOf (fl : List (Line × SrcFile)) (field : SrcFile → Int) (x : Line) : Int :=
  field ((lookupA fl x).getD SrcFile.init)

/-- The `### Sorting option` block: `sources = list(file_list.keys())`
followed by the `elif` chain.  Note there is no branch for `--total`: with
it (or no flag) the list keeps dict insertion order. -/
def sortSources (args : Args) (fl : List (Line × SrcFile)) : List Line :=
  let sources := fl.map Prod.fst
  if args.code = true then ssort (keyOf fl SrcFile.code) sources
  else if args.bss = true then ssort (keyOf fl SrcFile.bss) sources
  else if args.rodata = true then ssort (keyOf fl SrcFile.rodata) sources
  else if args.data = true then ssort (keyOf fl SrcFile.data) sources
  else sources

/-- Run an effectful map over a list, aborting at the first `none`: the
shape of a Python `for` loop whose body may raise. -/
def mapOpt {α β : Type} (f : α → Option β) : List α → Option (List β)
  | [] => some []
  | a :: as =>
    match f a with
    | none => none
    | some b =>
      match mapOpt f as with
      | none => none
      | some bs => some (b :: bs)

/-- The per-region utilization ratio `(mem.use * 100) / (mem.end -
mem.start)` printed by the `Memory` table.  Python's true division raises
`ZeroDivisionError` when `end == start`; that abort is modelled as
`none`.  (Python computes a float; the exact rational carries the same
information and the claims only concern the zero-denominator abort.) -/
def memUtil (m : Memory) : Option Rat :=
  if m.end_ - m.start = 0 then none
  else some (((m.use * 100 : Int) : Rat) / ((m.end_ - m.start : Int) : Rat))

/-- The `Memory` table: one ratio per region, `none` when printing it
would abort. -/
def memoryReport (mems : List Memory) : Option (List Rat) :=
  mapOpt memUtil mems

/-- The `Sector` table rows for one region: each section's share
`(sect.size * 100) / mem.use`; `none` models the `ZeroDivisionError` when
`mem.use` is zero while the region has sections. -/
def sectorShares (m : Memory) : Option (List Rat) :=
  mapOpt (fun p =>
    if m.use = 0 then none
    else some (((p.2.size * 100 : Int) : Rat) / ((m.use : Int) : Rat))) m.sections

/-- The whole `Sector` table. -/
def sectorReport (mems : List Memory) : Option (List (List Rat)) :=
  mapOpt sectorShares mems

/-- Sum of all `SrcFile` totals (the SUMMARY row's first column). -/
def sumTotals (fl : List (Line × SrcFile)) : Int :=
  (fl.map (fun p => p.2.total)).sum

/-- Sum of `use` over all registered regions. -/
def sumUse (mems : List Memory) : Int :=
  (mems.map Memory.use).sum

/-- Sum of the placement sizes of one region's section dict. -/
def sumSizes (secs : List (Line × Section)) : Int :=
  (secs.map (fun p => p.2.size)).sum

/-! ## General lemmas -/

theorem startswith_iff (p s : Line) : startswith p s = true ↔ ∃ t, s = p ++ t := by
  induction p generalizing s with
  | nil => simp [startswith]
  | cons c cs ih =>
    cases s with
    | nil => simp [startswith]
    | cons a as =>
      simp only [startswith, Bool.and_eq_true, beq_iff_eq, ih, List.cons_append,
        List.cons.injEq]
      constructor
      · rintro ⟨rfl, t, rfl⟩
        exact ⟨t, rfl, rfl⟩
      · rintro ⟨t, rfl, rfl⟩
        exact ⟨rfl, t, rfl⟩

theorem startswith_dot_false_of_space (s : Line) (c : Char) (t : Line)
    (hne : c ≠ '.') (hs : s = c :: t) : startswith (str ".") s = false := by
  subst hs
  simp [str, startswith]
  exact fun hc => hne hc.symm

theorem not_dot_of_space_dot (s : Line) (h : startswith (str " .") s = true) :
    startswith (str ".") s = false := by
  rw [startswith_iff] at h
  obtain ⟨t, rfl⟩ := h
  exact startswith_dot_false_of_space _ ' ' _ (by decide) rfl

theorem not_dot_of_spaces16 (s : Line) (h : startswith spaces16 s = true) :
    startswith (str ".") s = false := by
  rw [startswith_iff] at h
  obtain ⟨t, rfl⟩ := h
  exact startswith_dot_false_of_space _ ' ' _ (by decide) rfl

theorem lookupA_mem {α : Type} (l : List (Line × α)) (k : Line) (v : α)
    (h : lookupA l k = some v) : (k, v) ∈ l := by
  induction l with
  | nil => simp [lookupA] at h
  | cons p rest ih =>
    obtain ⟨k', v'⟩ := p
    by_cases hk : k' = k
    · subst hk
      simp [lookupA] at h
      simp [h]
    · simp [lookupA, hk] at h
      exact List.mem_cons_of_mem _ (ih h)

theorem find_mem_mem (mems : List Memory) (name : Line) (m : Memory)
    (h : find_mem mems name = some m) : m ∈ mems := by
  induction mems with
  | nil => simp [find_mem] at h
  | cons m' rest ih =>
    by_cases hn : m'.name = name
    · simp [find_mem, hn] at h
      simp [h]
    · simp [find_mem, hn] at h
      exact List.mem_cons_of_mem _ (ih h)

theorem lookupA_updateA_self {α : Type} (l : List (Line × α)) (k : Line) (f : α → α) :
    lookupA (updateA l k f) k = (lookupA l k).map f := by
  induction l with
  | nil => simp [lookupA, updateA]
  | cons p rest ih =>
    obtain ⟨k', v'⟩ := p
    by_cases hk : k' = k
    · subst hk
      simp [lookupA, updateA]
    · simp [lookupA, updateA, hk, ih]

theorem lookupA_updateA_ne {α : Type} (l : List (Line × α)) (k k' : Line) (f : α → α)
    (h : k' ≠ k) : lookupA (updateA l k f) k' = lookupA l k' := by
  induction l with
  | nil => simp [updateA]
  | cons p rest ih =>
    obtain ⟨k0, v0⟩ := p
    by_cases hk : k0 = k
    · subst hk
      have : k0 ≠ k' := fun hc => h hc.symm
      simp [lookupA, updateA, this]
    · by_cases hk' : k0 = k'
      · subst hk'
        simp [lookupA, updateA, hk]
      · simp [lookupA, updateA, hk, hk', ih]

theorem lookupA_append_none {α : Type} (l : List (Line × α)) (k : Line) (x : Line × α)
    (h : lookupA l k = none) : lookupA (l ++ [x]) k = if x.1 = k then some x.2 else none := by
  induction l with
  | nil => simp [lookupA]
  | cons p rest ih =>
    obtain ⟨k', v'⟩ := p
    by_cases hk : k' = k
    · simp [lookupA, hk] at h
    · simp [lookupA, hk] at h ⊢
      exact ih h

theorem lookupA_append_some {α : Type} (l l' : List (Line × α)) (k : Line) (v : α)
    (h : lookupA l k = some v) : lookupA (l ++ l') k = some v := by
  induction l with
  | nil => simp [lookupA] at h
  | cons p rest ih =>
    obtain ⟨k', v'⟩ := p
    by_cases hk : k' = k
    · simp [lookupA, hk] at h ⊢
      exact h
    · simp [lookupA, hk] at h ⊢
      exact ih h

theorem Memory.add_use (m : Memory) (sec : Line) (start size : Int) :
    (m.add sec start size).use = m.use + size := rfl

theorem Memory.add_name (m : Memory) (sec : Line) (start size : Int) :
    (m.add sec start size).name = m.name := rfl

theorem Memory.add_lookup_self (m : Memory) (sec : Line) (start size : Int) :
    lookupA (m.add sec start size).sections sec =
      some (Section.add ((lookupA m.sections sec).getD Section.init) start size) := by
  cases h : lookupA m.sections sec with
  | some v =>
    simp [Memory.add, h, lookupA_updateA_self]
  | none =>
    have happ := lookupA_append_none m.sections sec (sec, Section.init) h
    simp at happ
    simp [Memory.add, h, lookupA_updateA_self, happ]

theorem Memory.add_lookup_ne (m : Memory) (sec other : Line) (start size : Int)
    (hne : other ≠ sec) :
    lookupA (m.add sec start size).sections other = lookupA m.sections other := by
  cases h : lookupA m.sections sec with
  | some v =>
    simp [Memory.add, h, lookupA_updateA_ne _ _ _ _ hne]
  | none =>
    rw [Memory.add]
    simp [h, lookupA_updateA_ne _ _ _ _ hne]
    cases h' : lookupA m.sections other with
    | some w => exact lookupA_append_some _ _ _ _ h'
    | none =>
      have hres := lookupA_append_none m.sections other (sec, Section.init) h'
      rw [if_neg (fun hc => hne hc.symm)] at hres
      exact hres

theorem add_section_to_mem_drop (mems : List Memory) (sec : Line) (start size : Int)
    (h : ∀ m ∈ mems, memContains m start size = false) :
    add_section_to_mem mems sec start size = mems := by
  induction mems with
  | nil => rfl
  | cons m rest ih =>
    have hm := h m (List.mem_cons_self m rest)
    simp [add_section_to_mem, hm]
    exact ih (fun m' hm' => h m' (List.mem_cons_of_mem _ hm'))

theorem add_section_to_mem_first (pre : List Memory) (m : Memory) (post : List Memory)
    (sec : Line) (start size : Int)
    (hpre : ∀ m' ∈ pre, memContains m' start size = false)
    (hm : memContains m start size = true) :
    add_section_to_mem (pre ++ m :: post) sec start size =
      pre ++ (m.add sec start size) :: post := by
  induction pre with
  | nil => simp [add_section_to_mem, hm]
  | cons p rest ih =>
    have hp := hpre p (List.mem_cons_self p rest)
    simp only [List.cons_append, add_section_to_mem, hp, Bool.false_eq_true, if_false,
      List.append_eq]
    rw [ih (fun m' hm' => hpre m' (List.mem_cons_of_mem _ hm'))]

theorem add_section_to_mem_sumUse (mems : List Memory) (sec : Line) (start size : Int) :
    sumUse (add_section_to_mem mems sec start size) = sumUse mems + size ∨
      sumUse (add_section_to_mem mems sec start size) = sumUse mems := by
  induction mems with
  | nil => right; rfl
  | cons m rest ih =>
    by_cases hc : memContains m start size = true
    · left
      simp [add_section_to_mem, hc, sumUse, Memory.add_use]
      ring
    · simp only [Bool.not_eq_true] at hc
      rcases ih with h | h
      · left
        simp [add_section_to_mem, hc, sumUse] at h ⊢
        omega
      · right
        simp [add_section_to_mem, hc, sumUse] at h ⊢
        omega

/-! ## Claim C6 -/

/-- C6 (confirmed): given an attribution query `(sec, start, size)`, the
regions are scanned linearly in registration order and the first region
with `region.start <= start` and `start + size - 1 <= region.end` receives
it: its placement for `sec` grows by `size` with its start address set to
`start`, its `use` counter grows by `size`, placements of other section
names are untouched; when no region contains the whole range the
attribution is dropped and no region is modified. -/
theorem attribution_query_first_fit (pre : List Memory) (m : Memory) (post : List Memory)
    (sec : Line) (start size : Int)
    (hpre : ∀ m' ∈ pre, memContains m' start size = false)
    (hm : memContains m start size = true) :
    add_section_to_mem (pre ++ m :: post) sec start size =
        pre ++ (m.add sec start size) :: post ∧
      (m.add sec start size).use = m.use + size ∧
      lookupA (m.add sec start size).sections sec =
        some ⟨((lookupA m.sections sec).getD Section.init).size + size, start⟩ ∧
      (∀ other, other ≠ sec →
        lookupA (m.add sec start size).sections other = lookupA m.sections other) ∧
      (∀ mems : List Memory, (∀ m' ∈ mems, memContains m' start size = false) →
        add_section_to_mem mems sec start size = mems) := by
  refine ⟨add_section_to_mem_first pre m post sec start size hpre hm,
    Memory.add_use m sec start size, ?_,
    fun other hne => Memory.add_lookup_ne m sec other start size hne,
    fun mems h => add_section_to_mem_drop mems sec start size h⟩
  rw [Memory.add_lookup_self]
  rfl

/-- Witness for C6 at a concrete query: regions `A = [0x0, 0xff]` and
`B = [0x100, 0x1ff]`, query `(.text, 0x100, 0x10)` lands in `B`. -/
theorem attribution_query_first_fit_witness :
    add_section_to_mem
        ([Memory.init (str "A") 0 0x100] ++ Memory.init (str "B") 0x100 0x100 :: [])
        (str ".text") 0x100 0x10 =
      [Memory.init (str "A") 0 0x100] ++
        ((Memory.init (str "B") 0x100 0x100).add (str ".text") 0x100 0x10) :: [] ∧
      ((Memory.init (str "B") 0x100 0x100).add (str ".text") 0x100 0x10).use =
        (Memory.init (str "B") 0x100 0x100).use + 0x10 ∧
      lookupA ((Memory.init (str "B") 0x100 0x100).add (str ".text") 0x100 0x10).sections
          (str ".text") =
        some ⟨((lookupA (Memory.init (str "B") 0x100 0x100).sections
            (str ".text")).getD Section.init).size + 0x10, 0x100⟩ ∧
      lookupA ((Memory.init (str "B") 0x100 0x100).add (str ".text") 0x100 0x10).sections
          (str ".bss") =
        lookupA (Memory.init (str "B") 0x100 0x100).sections (str ".bss") ∧
      add_section_to_mem [Memory.init (str "A") 0 0x100] (str ".text") 0x100 0x10 =
        [Memory.init (str "A") 0 0x100] := by
  obtain ⟨h1, h2, h3, h4, h5⟩ :=
    attribution_query_first_fit [Memory.init (str "A") 0 0x100]
      (Memory.init (str "B") 0x100 0x100) [] (str ".text") 0x100 0x10
      (by decide) (by decide)
  exact ⟨h1, h2, h3, h4 (str ".bss") (by decide),
    h5 [Memory.init (str "A") 0 0x100] (by decide)⟩

/-! ## Region-accounting invariant (claim C10) -/

/-- The per-region invariant: `use` is the sum of the placement sizes and
every placement is strictly positive. -/
def MemInv (m : Memory) : Prop :=
  m.use = sumSizes m.sections ∧ ∀ p ∈ m.sections, 0 < p.2.size

theorem sumSizes_append (a b : List (Line × Section)) :
    sumSizes (a ++ b) = sumSizes a + sumSizes b := by
  simp [sumSizes]

theorem sumSizes_nonneg (l : List (Line × Section))
    (h : ∀ p ∈ l, 0 < p.2.size) : 0 ≤ sumSizes l := by
  induction l with
  | nil => simp [sumSizes]
  | cons p rest ih =>
    have hp := h p (List.mem_cons_self p rest)
    have hr := ih (fun q hq => h q (List.mem_cons_of_mem _ hq))
    simp [sumSizes] at hr ⊢
    omega

theorem updateA_addsec (secs : List (Line × Section)) (k : Line) (start size : Int)
    (v : Section) (hl : lookupA secs k = some v) :
    sumSizes (updateA secs k (fun s => Section.add s start size)) = sumSizes secs + size ∧
      ∀ p ∈ updateA secs k (fun s => Section.add s start size),
        p ∈ secs ∨ ∃ w, (p.1, w) ∈ secs ∧ p.2 = Section.add w start size := by
  induction secs with
  | nil => simp [lookupA] at hl
  | cons q rest ih =>
    obtain ⟨k', v'⟩ := q
    by_cases hk : k' = k
    · subst hk
      simp [lookupA] at hl
      constructor
      · simp [updateA, sumSizes, Section.add]
        ring
      · intro p hp
        simp [updateA] at hp
        rcases hp with rfl | hp
        · right
          exact ⟨v', by simp, rfl⟩
        · left
          exact List.mem_cons_of_mem _ hp
    · simp [lookupA, hk] at hl
      obtain ⟨hsum, hmem⟩ := ih hl
      constructor
      · simp [updateA, hk, sumSizes] at hsum ⊢
        omega
      · intro p hp
        simp [updateA, hk] at hp
        rcases hp with rfl | hp
        · left
          exact List.mem_cons_self _ _
        · rcases hmem p hp with h | ⟨w, hw, hpw⟩
          · left
            exact List.mem_cons_of_mem _ h
          · right
            exact ⟨w, List.mem_cons_of_mem _ hw, hpw⟩

theorem updateA_append_new (secs : List (Line × Section)) (k : Line)
    (f : Section → Section) (hl : lookupA secs k = none) :
    updateA (secs ++ [(k, Section.init)]) k f = secs ++ [(k, f Section.init)] := by
  induction secs with
  | nil => simp [updateA]
  | cons q rest ih =>
    obtain ⟨k', v'⟩ := q
    by_cases hk : k' = k
    · simp [lookupA, hk] at hl
    · simp [lookupA, hk] at hl
      simp [updateA, hk, ih hl]

theorem Memory.add_inv (m : Memory) (sec : Line) (start size : Int)
    (hm : MemInv m) (hsize : 0 < size) : MemInv (m.add sec start size) := by
  obtain ⟨hsum, hpos⟩ := hm
  cases h : lookupA m.sections sec with
  | some v =>
    obtain ⟨hsum', hmem'⟩ := updateA_addsec m.sections sec start size v h
    constructor
    · simp [Memory.add, h, hsum', hsum]
    · intro p hp
      simp only [Memory.add, h, Option.isSome_some, if_true] at hp
      rcases hmem' p hp with hmem | ⟨w, hw, hpw⟩
      · exact hpos p hmem
      · have := hpos (p.1, w) hw
        simp [Section.add, hpw]
        simp at this
        omega
  | none =>
    constructor
    · simp only [Memory.add, h, Option.isSome_none, Bool.false_eq_true, if_false]
      rw [updateA_append_new _ _ _ h, sumSizes_append]
      simp [sumSizes, Section.add, Section.init, hsum]
    · intro p hp
      simp only [Memory.add, h, Option.isSome_none, Bool.false_eq_true, if_false,
        updateA_append_new _ _ _ h, List.mem_append] at hp
      rcases hp with hp | hp
      · exact hpos p hp
      · simp at hp
        simp [hp, Section.add, Section.init]
        omega

theorem add_section_to_mem_inv (mems : List Memory) (sec : Line) (start size : Int)
    (hinv : ∀ m ∈ mems, MemInv m) (hsize : 0 < size) :
    ∀ m ∈ add_section_to_mem mems sec start size, MemInv m := by
  induction mems with
  | nil => simp [add_section_to_mem]
  | cons m rest ih =>
    by_cases hc : memContains m start size = true
    · simp only [add_section_to_mem, hc, if_true]
      intro m' hm'
      rcases List.mem_cons.mp hm' with rfl | hm'
      · exact Memory.add_inv m sec start size (hinv m (List.mem_cons_self m rest)) hsize
      · exact hinv m' (List.mem_cons_of_mem _ hm')
    · simp only [Bool.not_eq_true] at hc
      simp only [add_section_to_mem, hc, Bool.false_eq_true, if_false]
      intro m' hm'
      rcases List.mem_cons.mp hm' with rfl | hm'
      · exact hinv m' (List.mem_cons_self m' rest)
      · exact ih (fun q hq => hinv q (List.mem_cons_of_mem _ hq)) m' hm'

/-- All state components other than `mem_list`, `dispatchPhase` never
touches the region registry. -/
theorem addToFile_mem_list (st : BodyState) (source : Line) (size : Int) (st' : BodyState)
    (h : addToFile st source size = .ok st') : st'.mem_list = st.mem_list := by
  rw [addToFile] at h
  cases hc : st.cur_sec with
  | none => simp [hc] at h
  | some sec =>
    simp [hc] at h
    rw [← h]

theorem dispatchPhase_mem_list (st : BodyState) (line : Line) (st' : BodyState)
    (h : dispatchPhase st line = .ok st') : st'.mem_list = st.mem_list := by
  simp only [dispatchPhase] at h
  split at h
  · split at h
    · cases h
      rfl
    · split at h
      · cases h
        rfl
      · split at h
        · split at h
          · split at h
            · cases h
            · exact addToFile_mem_list _ _ _ _ h
          · split at h
            · cases h
            · split at h
              · cases h
              · exact addToFile_mem_list _ _ _ _ h
        · cases h
          rfl
  · cases h
    rfl

theorem gluePhase_mem_list (st : BodyState) (line : Line) :
    (gluePhase st line).2.mem_list = st.mem_list := by
  rw [gluePhase]
  cases st.split_line with
  | none => rfl
  | some sl =>
    by_cases hs : startswith spaces16 line = true
    · simp [hs]
    · simp [hs]

theorem sectionSizePhase_inv (st : BodyState) (line : Line) (st' : BodyState)
    (h : sectionSizePhase st line = .ok st')
    (hinv : ∀ m ∈ st.mem_list, MemInv m) : ∀ m ∈ st'.mem_list, MemInv m := by
  simp only [sectionSizePhase] at h
  split at h
  · split at h
    · split at h
      · cases h
      · split at h
        · cases h
        · split at h
          · rename_i size hsize
            cases h
            exact add_section_to_mem_inv _ _ _ _ hinv hsize
          · cases h
            exact hinv
    · cases h
      exact hinv
  · cases h
    exact hinv

theorem stepLine_inv (st : BodyState) (line : Line) (st' : BodyState)
    (h : stepLine st line = .ok st')
    (hinv : ∀ m ∈ st.mem_list, MemInv m) : ∀ m ∈ st'.mem_list, MemInv m := by
  rw [stepLine] at h
  cases h1 : sectionSizePhase st line with
  | err e => simp [h1] at h
  | ok st1 =>
    simp only [h1] at h
    have h2 := dispatchPhase_mem_list _ _ _ h
    rw [h2, gluePhase_mem_list]
    exact sectionSizePhase_inv st line st1 h1 hinv

theorem runLines_inv (lines : List Line) (st : BodyState) (st' : BodyState)
    (h : runLines st lines = .ok st')
    (hinv : ∀ m ∈ st.mem_list, MemInv m) : ∀ m ∈ st'.mem_list, MemInv m := by
  induction lines generalizing st with
  | nil =>
    simp [runLines] at h
    rw [← h]
    exact hinv
  | cons l ls ih =>
    rw [runLines] at h
    cases h1 : stepLine st l with
    | err e => simp [h1] at h
    | ok st1 =>
      simp only [h1] at h
      exact ih st1 h (stepLine_inv st l st1 h1 hinv)

theorem parseConfigLine_inv (mems : List Memory) (line : Line)
    (hinv : ∀ m ∈ mems, MemInv m) : ∀ m ∈ parseConfigLine mems line, MemInv m := by
  rw [parseConfigLine]
  split
  · exact hinv
  · split
    · exact hinv
    · split
      · exact hinv
      · split
        · exact hinv
        · intro m hm
          rcases List.mem_append.mp hm with hm | hm
          · exact hinv m hm
          · simp at hm
            subst hm
            exact ⟨rfl, by simp [Memory.init]⟩

theorem parseConfig_inv (lines : List Line) (mems : List Memory)
    (hinv : ∀ m ∈ mems, MemInv m) : ∀ m ∈ (parseConfig mems lines).1, MemInv m := by
  induction lines generalizing mems with
  | nil => exact hinv
  | cons l ls ih =>
    rw [parseConfig]
    split
    · exact hinv
    · exact ih _ (parseConfigLine_inv mems l hinv)

theorem reconcile_inv (st : BodyState)
    (hinv : ∀ m ∈ st.mem_list, MemInv m) : ∀ m ∈ (reconcile st).mem_list, MemInv m := by
  rw [reconcile]
  split
  · exact hinv
  next ram h1 =>
    split
    · exact hinv
    next ram_data h2 =>
      split
      · exact hinv
      next rom h3 =>
        have hram := hinv ram (find_mem_mem _ _ _ h1)
        have hpos := hram.2 (str ".data", ram_data) (lookupA_mem _ _ _ h2)
        exact add_section_to_mem_inv _ _ _ _ hinv hpos

theorem runMap_inv (lines : List Line) (st : BodyState)
    (h : runMap lines = .ok st) : ∀ m ∈ st.mem_list, MemInv m := by
  rw [runMap] at h
  refine runLines_inv _ _ _ h ?_
  exact parseConfig_inv _ _ (by simp [initState])

theorem runMapReconciled_inv (lines : List Line) (st : BodyState)
    (h : runMapReconciled lines = .ok st) : ∀ m ∈ st.mem_list, MemInv m := by
  rw [runMapReconciled] at h
  cases h1 : runMap lines with
  | err e => simp [h1] at h
  | ok st0 =>
    simp only [h1] at h
    cases h
    exact reconcile_inv st0 (runMap_inv lines st0 h1)

theorem mapOpt_isSome {α β : Type} (f : α → Option β) (l : List α)
    (h : ∀ x ∈ l, (f x).isSome = true) : (mapOpt f l).isSome = true := by
  induction l with
  | nil => simp [mapOpt]
  | cons a as ih =>
    have ha := h a (List.mem_cons_self a as)
    have has := ih (fun x hx => h x (List.mem_cons_of_mem _ hx))
    rw [mapOpt]
    cases hfa : f a with
    | none => simp [hfa] at ha
    | some b =>
      cases hmas : mapOpt f as with
      | none => simp [hmas] at has
      | some bs => simp

theorem sectorShares_isSome (m : Memory) (hm : MemInv m) :
    (sectorShares m).isSome = true := by
  rw [sectorShares]
  cases hs : m.sections with
  | nil => simp [mapOpt]
  | cons p rest =>
    have huse : 0 < m.use := by
      have h1 := hm.1
      have h2 := hm.2 p (by rw [hs]; exact List.mem_cons_self p rest)
      have h3 : 0 ≤ sumSizes rest :=
        sumSizes_nonneg rest (fun q hq => hm.2 q (by rw [hs]; exact List.mem_cons_of_mem _ hq))
      rw [hs] at h1
      simp [sumSizes] at h1 h3
      omega
    rw [← hs]
    refine mapOpt_isSome _ _ ?_
    intro x hx
    have : ¬ m.use = 0 := by omega
    simp [this]

/-! ## Claim C10 -/

/-- C10 (confirmed): in every completed run (before or after
reconciliation) each region's `use` equals the sum of its placement
sizes, every placement is strictly positive (attributions are guarded by
`size > 0`), and consequently the `Sector` report's division of each
placement by `mem.use` never divides by zero. -/
theorem region_use_invariant (lines : List Line) (st : BodyState)
    (h : runMap lines = .ok st ∨ runMapReconciled lines = .ok st) :
    (∀ m ∈ st.mem_list, m.use = sumSizes m.sections ∧ ∀ p ∈ m.sections, 0 < p.2.size) ∧
      (sectorReport st.mem_list).isSome = true := by
  have hinv : ∀ m ∈ st.mem_list, MemInv m := by
    rcases h with h | h
    · exact runMap_inv lines st h
    · exact runMapReconciled_inv lines st h
  exact ⟨hinv, mapOpt_isSome _ _ (fun m hm => sectorShares_isSome m (hinv m hm))⟩

/-- A concrete input with populated FLASH and RAM, used for the C10
witness. -/
def c10lines : List Line :=
  [str "Memory Configuration", str "FLASH 0x10000000 0x1000",
    str "RAM 0x20000000 0x1000", str "Linker script and memory map",
    str ".text 0x10000000 0x20", str ".data 0x20000000 0x10"]

/-- Witness for C10 on a concrete run with a populated FLASH and RAM and a
reconciled `.data(image)` placement: the `Sector` report prints without a
zero division. -/
theorem region_use_invariant_witness :
    (sectorReport (getOk (runMapReconciled c10lines)).mem_list).isSome = true :=
  (region_use_invariant c10lines (getOk (runMapReconciled c10lines))
    (Or.inr (by decide))).2

/-! ## Per-line dispatch lemmas -/

theorem sectionSizePhase_skip (st : BodyState) (line : Line)
    (h : startswith (str ".") line = false) : sectionSizePhase st line = .ok st := by
  simp [sectionSizePhase, h]

theorem gluePhase_none (st : BodyState) (line : Line) (h : st.split_line = none) :
    gluePhase st line = (line, st) := by
  simp [gluePhase, h]

theorem dispatchPhase_skip (st : BodyState) (line : Line)
    (h1 : startswith (str ".") line = false)
    (h2 : startswith (str " .") line = false)
    (h3 : startswith (str " *fill*") line = false) :
    dispatchPhase st line = .ok st := by
  simp [dispatchPhase, h1, h2, h3]

theorem dispatchPhase_frag (st : BodyState) (line : Line)
    (hsd : startswith (str " .") line = true)
    (hp : (pySplit 3 line).length = 1)
    (hl : 14 < line.length) :
    dispatchPhase st line = .ok { st with split_line := some line } := by
  have hdot := not_dot_of_space_dot line hsd
  simp only [dispatchPhase, hsd, hdot, Bool.false_eq_true, Bool.false_or, Bool.true_or,
    if_true, if_false]
  rw [if_pos ⟨hp, hl⟩]

theorem stepLine_phases (st st1 st2 : BodyState) (line glued : Line)
    (hs : sectionSizePhase st line = .ok st1)
    (hg : gluePhase st1 line = (glued, st2)) :
    stepLine st line = dispatchPhase st2 glued := by
  rw [stepLine, hs]
  show dispatchPhase (gluePhase st1 line).2 (gluePhase st1 line).1 = dispatchPhase st2 glued
  rw [hg]

theorem dispatchPhase_alloc (st : BodyState) (line : Line) (sz : Int)
    (hsd : startswith (str " .") line = true)
    (hlen : 3 ≤ (pySplit 3 line).length)
    (heq : hasTok (pySplit 3 line) (str "=") = false)
    (hbef : hasTok (pySplit 3 line) (str "before") = false)
    (hfill : nth (pySplit 3 line) 0 ≠ str "*fill*")
    (hsize : pyIntHex (nthLast (pySplit 3 line) 2) = some sz)
    (hstart : (pyIntHex (nthLast (pySplit 3 line) 3)).isSome = true) :
    dispatchPhase st line = addToFile st (nthLast (pySplit 3 line) 1) sz := by
  have hdot := not_dot_of_space_dot line hsd
  simp only [dispatchPhase, hsd, hdot, Bool.false_eq_true, Bool.false_or, Bool.true_or,
    if_true, if_false]
  rw [if_neg (fun hc => by omega)]
  rw [if_pos ⟨hlen, heq, hbef⟩, if_neg hfill, hsize]
  obtain ⟨v, hv⟩ := Option.isSome_iff_exists.mp hstart
  rw [hv]

/-! ## Claim C9 -/

/-- Concrete input whose first allocation record precedes any section
header. -/
def c9lines : List Line :=
  [str "Memory Configuration", str "Linker script and memory map",
    str " .text 0x0 0x8 a.o"]

/-- C9 (confirmed): when `cur_sec` is still `None` and the line is an
allocation record (indented, at least three tokens, no `=` or `before`
token, not a `*fill*` row, well-formed hex size and start), processing
aborts with the `AttributeError` raised by calling `.startswith` on
`None` inside `SrcFile.add`, instead of skipping the line; in particular
the concrete run `c9lines`, whose first allocation record precedes every
section header, aborts that way. -/
theorem alloc_before_section_header_crashes (st : BodyState) (line : Line) (sz : Int)
    (hcs : st.cur_sec = none)
    (hsl : st.split_line = none)
    (hsd : startswith (str " .") line = true)
    (hlen : 3 ≤ (pySplit 3 line).length)
    (heq : hasTok (pySplit 3 line) (str "=") = false)
    (hbef : hasTok (pySplit 3 line) (str "before") = false)
    (hfill : nth (pySplit 3 line) 0 ≠ str "*fill*")
    (hsize : pyIntHex (nthLast (pySplit 3 line) 2) = some sz)
    (hstart : (pyIntHex (nthLast (pySplit 3 line) 3)).isSome = true) :
    stepLine st line = .err .attributeError ∧
      runMap c9lines = .err .attributeError := by
  constructor
  · rw [stepLine_phases st st st line line
      (sectionSizePhase_skip st line (not_dot_of_space_dot line hsd))
      (gluePhase_none st line hsl)]
    rw [dispatchPhase_alloc st line sz hsd hlen heq hbef hfill hsize hstart]
    simp [addToFile, hcs]
  · decide

/-- Witness for C9: the allocation line of `c9lines` from the initial
state. -/
theorem alloc_before_section_header_crashes_witness :
    stepLine (initState []) (str " .text 0x0 0x8 a.o") = .err .attributeError ∧
      runMap c9lines = .err .attributeError :=
  alloc_before_section_header_crashes (initState []) (str " .text 0x0 0x8 a.o") 8
    rfl rfl (by decide) (by decide) (by decide) (by decide) (by decide) (by decide)
    (by decide)

/-! ## Claim C8 -/

theorem not_dot_append (frag cont : Line) (h : startswith (str " .") frag = true) :
    startswith (str ".") (frag ++ cont) = false := by
  rw [startswith_iff] at h
  obtain ⟨t, rfl⟩ := h
  rfl

theorem set_split_none (st : BodyState) (h : st.split_line = none) :
    { st with split_line := none } = st := by
  cases st
  simp only [BodyState.mk.injEq, true_and, and_true]
  simp at h
  rw [h]

/-- C8 (confirmed): a record that the report emits split across two
physical lines — a fragment with a single long token followed by a
continuation line carrying at least sixteen leading spaces — is glued
back together and processed exactly like the single line made of the two
parts (producing the same SourceAccount update); a pending fragment whose
next line lacks the sixteen leading spaces is discarded with a warning
and processing continues normally on that line. -/
theorem split_record_reassembled (st : BodyState) (frag cont : Line)
    (h0 : st.split_line = none)
    (h1 : startswith (str " .") frag = true)
    (h2 : (pySplit 3 frag).length = 1)
    (h3 : 14 < frag.length)
    (h4 : startswith spaces16 cont = true) :
    runLines st [frag, cont] = runLines st [frag ++ cont] ∧
      (∀ other : Line, startswith spaces16 other = false →
        startswith (str ".") other = false → startswith (str " .") other = false →
        startswith (str " *fill*") other = false →
        runLines st [frag, other] = .ok { st with warnings := st.warnings ++ [frag] }) := by
  have hdotf := not_dot_of_space_dot frag h1
  have hstep1 : stepLine st frag = .ok { st with split_line := some frag } := by
    rw [stepLine_phases st st st frag frag (sectionSizePhase_skip st frag hdotf)
      (gluePhase_none st frag h0)]
    exact dispatchPhase_frag st frag h1 h2 h3
  constructor
  · have hdotc := not_dot_of_spaces16 cont h4
    have hglue : gluePhase { st with split_line := some frag } cont =
        (frag ++ cont, st) := by
      simp only [gluePhase, h4, if_true]
      exact congrArg _ (set_split_none st h0)
    have hstep2 : stepLine { st with split_line := some frag } cont =
        dispatchPhase st (frag ++ cont) :=
      stepLine_phases _ _ _ _ _ (sectionSizePhase_skip _ cont hdotc) hglue
    have hsingle : stepLine st (frag ++ cont) = dispatchPhase st (frag ++ cont) :=
      stepLine_phases _ _ _ _ _
        (sectionSizePhase_skip st (frag ++ cont) (not_dot_append frag cont h1))
        (gluePhase_none st (frag ++ cont) h0)
    simp only [runLines, hstep1, hstep2, hsingle]
  · intro other ho16 ho1 ho2 ho3
    have hglue2 : gluePhase { st with split_line := some frag } other =
        (other, { st with split_line := none, warnings := st.warnings ++ [frag] }) := by
      simp only [gluePhase, ho16, Bool.false_eq_true, if_false]
    have hstep2 : stepLine { st with split_line := some frag } other =
        .ok { st with split_line := none, warnings := st.warnings ++ [frag] } := by
      rw [stepLine_phases _ _ _ _ _ (sectionSizePhase_skip _ other ho1) hglue2]
      exact dispatchPhase_skip _ other ho1 ho2 ho3
    simp only [runLines, hstep1, hstep2]
    rw [h0]

/-- Witness for C8: the wrapped record ` .text.veryLongSectionName` +
sixteen-space continuation equals its one-line form, and a stray fragment
is discarded with a warning while its successor line is still
processed. -/
theorem split_record_reassembled_witness :
    runLines (initState []) [str " .text.veryLongSectionName",
        str "                0x10 0x8 a.o"] =
      runLines (initState [])
        [str " .text.veryLongSectionName" ++ str "                0x10 0x8 a.o"] ∧
      runLines (initState []) [str " .text.veryLongSectionName",
          str "OUTPUT(main.elf elf32-littlearm)"] =
        .ok { initState [] with
              warnings := (initState []).warnings ++ [str " .text.veryLongSectionName"] } := by
  obtain ⟨h1, h2⟩ :=
    split_record_reassembled (initState []) (str " .text.veryLongSectionName")
      (str "                0x10 0x8 a.o") rfl (by decide) (by decide) (by decide)
      (by decide)
  exact ⟨h1, h2 (str "OUTPUT(main.elf elf32-littlearm)") (by decide) (by decide)
    (by decide) (by decide)⟩

/-! ## Claim C4 -/

/-- Concrete input whose `*fill*` row has a malformed (non-hex) size
field. -/
def c4lines : List Line :=
  [str "Memory Configuration", str "Linker script and memory map",
    str " *fill* 0x0 zzzz"]

/-- C4 counterexample: the claim says a `*fill*` row with a malformed
size field is still counted without raising and that only I/O failure
aborts the run; in fact the run aborts with an uncaught `ValueError` from
`int(part[-1], 16)`. -/
theorem fill_malformed_size_raises : runMap c4lines = .err .valueError := by decide

/-- C4 (amended): a body line that matches no recognized shape is
silently skipped with the state unchanged, and a `*fill*` row whose size
field is well-formed hex is counted under the `*fill*` source identifier
as reported (no validation) — but a recognized-shape line whose numeric
field is not valid hexadecimal aborts the run with an uncaught
`ValueError` (see the counterexample), so it is not true that only I/O
failure aborts. -/
theorem unrecognized_is_skipped (st : BodyState) (mems : List Memory) (w : List Line) :
    (∀ line : Line, st.split_line = none →
      startswith (str ".") line = false → startswith (str " .") line = false →
      startswith (str " *fill*") line = false → stepLine st line = .ok st) ∧
      stepLine ⟨mems, [], some (str ".text"), none, w⟩ (str " *fill* 0x4 0x999") =
        .ok ⟨mems, [(str "*fill*", { SrcFile.init with code := 0x999 })],
          some (str ".text"), none, w⟩ := by
  constructor
  · intro line h0 h1 h2 h3
    rw [stepLine_phases st st st line line (sectionSizePhase_skip st line h1)
      (gluePhase_none st line h0)]
    exact dispatchPhase_skip st line h1 h2 h3
  · rfl

/-- Witness for C4's amended theorem: a diagnostic line is skipped and the
concrete `*fill*` row is counted. -/
theorem unrecognized_is_skipped_witness :
    stepLine (initState []) (str "LOAD build/main.o") = .ok (initState []) ∧
      stepLine ⟨[], [], some (str ".text"), none, []⟩ (str " *fill* 0x4 0x999") =
        .ok ⟨[], [(str "*fill*", { SrcFile.init with code := 0x999 })],
          some (str ".text"), none, []⟩ :=
  ⟨(unrecognized_is_skipped (initState []) [] []).1 (str "LOAD build/main.o") rfl
      (by decide) (by decide) (by decide),
    (unrecognized_is_skipped (initState []) [] []).2⟩

/-! ## Claim C1 -/

theorem mapOpt_none_of_mem {α β : Type} (f : α → Option β) (l : List α) (x : α)
    (hx : x ∈ l) (hf : f x = none) : mapOpt f l = none := by
  induction l with
  | nil => simp at hx
  | cons a as ih =>
    rcases List.mem_cons.mp hx with rfl | hx
    · simp [mapOpt, hf]
    · rw [mapOpt]
      cases hfa : f a with
      | none => rfl
      | some b => rw [ih hx]

/-- Concrete input declaring a region of length 1, so `end == start`. -/
def c1lines : List Line :=
  [str "Memory Configuration", str "X 0x0 0x1",
    str "Linker script and memory map"]

/-- C1 counterexample: the claim says the utilization computation is
explicitly guarded so a zero-span region (declared length 1) cannot
divide by zero; in fact the run parses `X 0x0 0x1` and the `Memory`
report divides by `end - start = 0`, aborting with `ZeroDivisionError`
(`memoryReport ... = none`). -/
theorem zero_span_region_crashes_report :
    (runMapReconciled c1lines).isOk = true ∧
      memoryReport (getOk (runMapReconciled c1lines)).mem_list = none := by decide

/-- C1 (amended): the per-region utilization `used * 100 / (end - start)`
is computed for every region with `end ≠ start`, but the computation is
NOT guarded: any region whose address span is zero (`end == start`, i.e.
declared with length 1) makes the whole `Memory` report abort with a
`ZeroDivisionError`. -/
theorem util_ratio_unguarded (m : Memory) (mems : List Memory) :
    (m.end_ ≠ m.start →
      memUtil m = some (((m.use * 100 : Int) : Rat) / ((m.end_ - m.start : Int) : Rat))) ∧
      (m ∈ mems → m.end_ = m.start → memoryReport mems = none) := by
  constructor
  · intro h
    rw [memUtil, if_neg (sub_ne_zero_of_ne h)]
  · intro hmem h
    refine mapOpt_none_of_mem _ _ m hmem ?_
    rw [memUtil, if_pos (by rw [h]; ring)]

/-- Witness for C1's amended theorem: a span-`0x100` region has its ratio
computed; a zero-span region aborts the report. -/
theorem util_ratio_unguarded_witness :
    memUtil (Memory.init (str "M") 0 0x100) =
      some ((((Memory.init (str "M") 0 0x100).use * 100 : Int) : Rat) /
        (((Memory.init (str "M") 0 0x100).end_ - (Memory.init (str "M") 0 0x100).start :
          Int) : Rat)) ∧
      memoryReport [Memory.init (str "Z") 0 1] = none :=
  ⟨(util_ratio_unguarded (Memory.init (str "M") 0 0x100) []).1 (by decide),
    (util_ratio_unguarded (Memory.init (str "Z") 0 1) [Memory.init (str "Z") 0 1]).2
      (by decide) (by decide)⟩

/-! ## Claim C2 -/

/-- RAM's `.data` placement size, when present: the quantity the
reconciler feeds to the attribution query. -/
def ramDataSize (st : BodyState) : Option Int :=
  match find_mem st.mem_list (str "RAM") with
  | none => none
  | some ram => (lookupA ram.sections (str ".data")).map Section.size

/-- Concrete input whose section-header bytes reach the region registry
while no allocation record feeds the SourceAccount table. -/
def c2lines : List Line :=
  [str "Memory Configuration", str "FLASH 0x10000000 0x1000",
    str "Linker script and memory map", str ".text 0x10000000 0x20"]

/-- C2 counterexample: the claim says that after body parsing (before
reconciliation) the sum of the SourceAccount totals equals the sum of
`region.used`; on `c2lines` the run completes with `sum(region.used) =
0x20` from the section-header line but an empty SourceAccount table, so
the sums differ. -/
theorem table_sums_differ :
    (runMap c2lines).isOk = true ∧
      sumTotals (getOk (runMap c2lines)).file_list ≠
        sumUse (getOk (runMap c2lines)).mem_list := by decide

/-- C2 (amended): the two tables are fed by different line shapes (the
region registry by top-level section-header lines, the SourceAccount
table by indented allocation records), so their sums need not agree on
every input; what does hold is that the reconciler touches only the
region registry: it never changes the SourceAccount table, and it raises
the summed `region.used` by exactly the synthetic `.data(image)` size —
RAM's `.data` placement size — when the attribution query places it, and
by nothing otherwise. -/
theorem reconciler_updates_only_regions (st : BodyState) :
    (reconcile st).file_list = st.file_list ∧
      (sumUse (reconcile st).mem_list = sumUse st.mem_list ∨
        ∃ sz, ramDataSize st = some sz ∧
          sumUse (reconcile st).mem_list = sumUse st.mem_list + sz) := by
  rw [reconcile]
  split
  · exact ⟨rfl, Or.inl rfl⟩
  next ram h1 =>
    split
    · exact ⟨rfl, Or.inl rfl⟩
    next ram_data h2 =>
      split
      · exact ⟨rfl, Or.inl rfl⟩
      next rom h3 =>
        refine ⟨rfl, ?_⟩
        rcases add_section_to_mem_sumUse st.mem_list (str ".data(image)")
            (rom.start + rom.use) ram_data.size with h | h
        · right
          refine ⟨ram_data.size, ?_, h⟩
          simp only [ramDataSize, h1, h2, Option.map_some']
        · left
          exact h

/-! ## Claim C5 -/

/-- Concrete input where FLASH is too full to contain the synthetic
`.data(image)` range, so the reconciler's attribution is dropped. -/
def c5lines : List Line :=
  [str "Memory Configuration", str "FLASH 0x100 0x10", str "RAM 0x200 0x100",
    str "Linker script and memory map", str ".text 0x100 0x10",
    str ".data 0x200 0x20"]

/-- C5 counterexample: the claim says that whenever RAM has a `.data`
placement and FLASH exists, the reconciler adds a `.data(image)`
placement to FLASH and FLASH's `used` grows by that size.  On `c5lines`
both premises hold (RAM's `.data` has size `0x20`, FLASH exists), yet
after reconciliation FLASH's `use` is still `0x10` and it has no
`.data(image)` placement: the range `[0x110, 0x12f]` fits no region, so
the attribution query drops it. -/
theorem reconciler_attribution_dropped :
    (runMapReconciled c5lines).isOk = true ∧
      ramDataSize (getOk (runMap c5lines)) = some 0x20 ∧
      (find_mem (getOk (runMap c5lines)).mem_list (str "FLASH")).isSome = true ∧
      (find_mem (getOk (runMapReconciled c5lines)).mem_list (str "FLASH")).map
          Memory.use = some 0x10 ∧
      (find_mem (getOk (runMapReconciled c5lines)).mem_list (str "FLASH")).map
          (fun m => (lookupA m.sections (str ".data(image)")).isSome) =
        some false := by decide

/-- C5 (amended): when RAM's `.data` placement and FLASH both exist, the
reconciler hands a `.data(image)` attribution of RAM's `.data` size,
starting at `FLASH.start + FLASH.use`, to the ordinary first-fit
attribution query over all regions — so it lands in FLASH exactly when
FLASH is the first registered region containing that range, and is
otherwise given to an earlier containing region or dropped; when RAM,
FLASH, or the `.data` placement is absent, the step is skipped without
error and no region changes. -/
theorem reconciler_is_attribution_query (st : BodyState) :
    (∀ ram sd rom, find_mem st.mem_list (str "RAM") = some ram →
      lookupA ram.sections (str ".data") = some sd →
      find_mem st.mem_list (str "FLASH") = some rom →
      reconcile st = { st with
        mem_list := add_section_to_mem st.mem_list (str ".data(image)")
          (rom.start + rom.use) sd.size }) ∧
      (find_mem st.mem_list (str "RAM") = none → reconcile st = st) ∧
      (∀ ram, find_mem st.mem_list (str "RAM") = some ram →
        lookupA ram.sections (str ".data") = none → reconcile st = st) ∧
      (∀ ram sd, find_mem st.mem_list (str "RAM") = some ram →
        lookupA ram.sections (str ".data") = some sd →
        find_mem st.mem_list (str "FLASH") = none → reconcile st = st) := by
  refine ⟨?_, ?_, ?_, ?_⟩
  · intro ram sd rom h1 h2 h3
    simp only [reconcile, h1, h2, h3]
  · intro h1
    simp only [reconcile, h1]
  · intro ram h1 h2
    simp only [reconcile, h1, h2]
  · intro ram sd h1 h2 h3
    simp only [reconcile, h1, h2, h3]

/-- A concrete pre-reconciliation state for the C5 witness: FLASH with
room, RAM with a `.data` placement of size `0x20`. -/
def c5ram : Memory := (Memory.init (str "RAM") 0x2000 0x1000).add (str ".data") 0x2000 0x20

/-- See `c5ram`. -/
def c5st : BodyState :=
  ⟨[Memory.init (str "FLASH") 0x100 0x1000, c5ram], [], none, none, []⟩

/-- Witness for C5's amended theorem at `c5st`. -/
theorem reconciler_is_attribution_query_witness :
    reconcile c5st = { c5st with
      mem_list := add_section_to_mem c5st.mem_list (str ".data(image)") 0x100 0x20 } :=
  (reconciler_is_attribution_query c5st).1 c5ram ⟨0x20, 0x2000⟩
    (Memory.init (str "FLASH") 0x100 0x1000) (by decide) (by decide) (by decide)

/-! ## Claim C3 -/

/-- The list is ascending under `key`. -/
def sortedAsc (key : Line → Int) (l : List Line) : Prop :=
  List.Pairwise (fun a b => key a ≤ key b) l

/-- Elements of equal key appear in `out` in exactly the order they have
in `orig` (ties broken by first appearance). -/
def sameTies (key : Line → Int) (orig out : List Line) : Prop :=
  ∀ v : Int, out.filter (fun y => key y == v) = orig.filter (fun y => key y == v)

theorem mem_sinsert (key : Line → Int) (x : Line) (l : List Line) (y : Line)
    (h : y ∈ sinsert key x l) : y = x ∨ y ∈ l := by
  induction l with
  | nil => simpa [sinsert] using h
  | cons z zs ih =>
    rw [sinsert] at h
    by_cases hc : key x ≤ key z
    · rw [if_pos hc] at h
      rcases List.mem_cons.mp h with rfl | h
      · exact Or.inl rfl
      · exact Or.inr h
    · rw [if_neg hc] at h
      rcases List.mem_cons.mp h with rfl | h
      · exact Or.inr (List.mem_cons_self _ _)
      · rcases ih h with h | h
        · exact Or.inl h
        · exact Or.inr (List.mem_cons_of_mem _ h)

theorem sinsert_sorted (key : Line → Int) (x : Line) (l : List Line)
    (h : sortedAsc key l) : sortedAsc key (sinsert key x l) := by
  induction l with
  | nil => simp [sinsert, sortedAsc]
  | cons z zs ih =>
    rw [sortedAsc, sinsert]
    rw [sortedAsc, List.pairwise_cons] at h
    obtain ⟨hz, hzs⟩ := h
    by_cases hc : key x ≤ key z
    · rw [if_pos hc]
      refine List.Pairwise.cons ?_ (List.Pairwise.cons hz hzs)
      intro b hb
      rcases List.mem_cons.mp hb with rfl | hb
      · exact hc
      · exact le_trans hc (hz b hb)
    · rw [if_neg hc]
      refine List.Pairwise.cons ?_ (ih hzs)
      intro b hb
      rcases mem_sinsert key x zs b hb with rfl | hb
      · omega
      · exact hz b hb

theorem ssort_sorted (key : Line → Int) (l : List Line) : sortedAsc key (ssort key l) := by
  induction l with
  | nil => simp [ssort, sortedAsc]
  | cons x xs ih =>
    rw [ssort]
    exact sinsert_sorted key x (ssort key xs) ih

theorem sinsert_filter (key : Line → Int) (x : Line) (l : List Line) (v : Int) :
    (sinsert key x l).filter (fun y => key y == v) =
      if key x = v then x :: l.filter (fun y => key y == v)
      else l.filter (fun y => key y == v) := by
  induction l with
  | nil =>
    rw [sinsert]
    by_cases hv : key x = v
    · simp [List.filter_cons, hv]
    · simp [List.filter_cons, hv]
  | cons z zs ih =>
    rw [sinsert]
    by_cases hc : key x ≤ key z
    · rw [if_pos hc, List.filter_cons]
      by_cases hv : key x = v
      · simp [hv]
      · simp [hv]
    · rw [if_neg hc, List.filter_cons, List.filter_cons, ih]
      by_cases hv : key x = v
      · have hzv : ¬ key z = v := by omega
        simp [hv, hzv]
      · by_cases hzv : key z = v
        · simp [hv, hzv]
        · simp [hv, hzv]

theorem ssort_filter (key : Line → Int) (l : List Line) (v : Int) :
    (ssort key l).filter (fun y => key y == v) = l.filter (fun y => key y == v) := by
  induction l with
  | nil => rfl
  | cons x xs ih =>
    rw [ssort, sinsert_filter, List.filter_cons]
    by_cases hv : key x = v
    · simp [hv, ih]
    · simp [hv, ih]

/-- C3 (corrected): when one of `--code`, `--bss`, `--rodata`, `--data`
is selected (in the `elif` order of the script), the reported source list
is sorted ascending by that category with ties in first-appearance order;
but there is no sorting branch for the default `--total` category: with
it the list stays in first-appearance (insertion) order. -/
theorem sort_category_behavior (args : Args) (fl : List (Line × SrcFile)) :
    (args.code = true →
      sortedAsc (keyOf fl SrcFile.code) (sortSources args fl) ∧
        sameTies (keyOf fl SrcFile.code) (fl.map Prod.fst) (sortSources args fl)) ∧
      (args.code = false → args.bss = true →
        sortedAsc (keyOf fl SrcFile.bss) (sortSources args fl) ∧
          sameTies (keyOf fl SrcFile.bss) (fl.map Prod.fst) (sortSources args fl)) ∧
      (args.code = false → args.bss = false → args.rodata = true →
        sortedAsc (keyOf fl SrcFile.rodata) (sortSources args fl) ∧
          sameTies (keyOf fl SrcFile.rodata) (fl.map Prod.fst) (sortSources args fl)) ∧
      (args.code = false → args.bss = false → args.rodata = false → args.data = true →
        sortedAsc (keyOf fl SrcFile.data) (sortSources args fl) ∧
          sameTies (keyOf fl SrcFile.data) (fl.map Prod.fst) (sortSources args fl)) ∧
      (args.code = false → args.bss = false → args.rodata = false → args.data = false →
        sortSources args fl = fl.map Prod.fst) := by
  refine ⟨?_, ?_, ?_, ?_, ?_⟩
  · intro h1
    simp only [sortSources, h1, if_true]
    exact ⟨ssort_sorted _ _, fun v => ssort_filter _ _ v⟩
  · intro h1 h2
    simp only [sortSources, h1, h2, if_true, Bool.false_eq_true, if_false]
    exact ⟨ssort_sorted _ _, fun v => ssort_filter _ _ v⟩
  · intro h1 h2 h3
    simp only [sortSources, h1, h2, h3, if_true, Bool.false_eq_true, if_false]
    exact ⟨ssort_sorted _ _, fun v => ssort_filter _ _ v⟩
  · intro h1 h2 h3 h4
    simp only [sortSources, h1, h2, h3, h4, if_true, Bool.false_eq_true, if_false]
    exact ⟨ssort_sorted _ _, fun v => ssort_filter _ _ v⟩
  · intro h1 h2 h3 h4
    simp only [sortSources, h1, h2, h3, h4, Bool.false_eq_true, if_false]

/-- Two accounts whose totals decrease in insertion order, for the C3
counterexample and witness. -/
def c3fl : List (Line × SrcFile) :=
  [(str "b", ⟨5, 0, 0, 0, 0⟩), (str "a", ⟨3, 0, 0, 0, 0⟩)]

/-- C3 counterexample: under the default/`--total` selection the source
list is reported in insertion order (`[b, a]`, totals `5, 3`), which is
not ascending in the `total` category — the script has no sorting branch
for it. -/
theorem total_category_not_sorted :
    sortSources ⟨true, false, false, false, false⟩ c3fl = [str "b", str "a"] ∧
      ¬ sortedAsc (keyOf c3fl SrcFile.total)
        (sortSources ⟨true, false, false, false, false⟩ c3fl) := by
  constructor
  · rfl
  · intro h
    rw [sortedAsc,
      show sortSources ⟨true, false, false, false, false⟩ c3fl = [str "b", str "a"]
        from rfl] at h
    have hle := (List.pairwise_cons.mp h).1 (str "a") (List.mem_cons_self _ _)
    have : keyOf c3fl SrcFile.total (str "b") = 5 := by decide
    have : keyOf c3fl SrcFile.total (str "a") = 3 := by decide
    omega

/-- Witness for C3's theorem with `--code` selected on `c3fl`. -/
theorem sort_category_behavior_witness :
    sortedAsc (keyOf c3fl SrcFile.code)
        (sortSources ⟨false, true, false, false, false⟩ c3fl) ∧
      sameTies (keyOf c3fl SrcFile.code) (c3fl.map Prod.fst)
        (sortSources ⟨false, true, false, false, false⟩ c3fl) :=
  (sort_category_behavior ⟨false, true, false, false, false⟩ c3fl).1 rfl

/-! ## Claim C7 -/

theorem not_text_of_rodata (sec : Line) (h : startswith (str ".rodata") sec = true) :
    startswith (str ".text") sec = false := by
  rw [startswith_iff] at h
  obtain ⟨t, rfl⟩ := h
  rfl

theorem not_text_of_data (sec : Line) (h : startswith (str ".data") sec = true) :
    startswith (str ".text") sec = false := by
  rw [startswith_iff] at h
  obtain ⟨t, rfl⟩ := h
  rfl

theorem not_rodata_of_data (sec : Line) (h : startswith (str ".data") sec = true) :
    startswith (str ".rodata") sec = false := by
  rw [startswith_iff] at h
  obtain ⟨t, rfl⟩ := h
  rfl

theorem not_text_of_bss (sec : Line) (h : startswith (str ".bss") sec = true) :
    startswith (str ".text") sec = false := by
  rw [startswith_iff] at h
  obtain ⟨t, rfl⟩ := h
  rfl

theorem not_rodata_of_bss (sec : Line) (h : startswith (str ".bss") sec = true) :
    startswith (str ".rodata") sec = false := by
  rw [startswith_iff] at h
  obtain ⟨t, rfl⟩ := h
  rfl

theorem not_data_of_bss (sec : Line) (h : startswith (str ".bss") sec = true) :
    startswith (str ".data") sec = false := by
  rw [startswith_iff] at h
  obtain ⟨t, rfl⟩ := h
  rfl

theorem ignored_prefix_disjoint (sec : Line)
    (h : (startswith (str ".comment") sec || startswith (str ".debug") sec ||
      startswith (str ".ARM.attributes") sec) = true) :
    startswith (str ".text") sec = false ∧ startswith (str ".rodata") sec = false ∧
      startswith (str ".data") sec = false ∧ startswith (str ".bss") sec = false := by
  simp only [Bool.or_eq_true] at h
  rcases h with (h | h) | h <;>
    · rw [startswith_iff] at h
      obtain ⟨t, rfl⟩ := h
      exact ⟨rfl, rfl, rfl, rfl⟩

/-- Concrete input with a section-header line that carries an object-file
token. -/
def c7lines : List Line :=
  [str "Memory Configuration", str "FLASH 0x10000000 0x1000",
    str "Linker script and memory map", str ".text 0x10000000 0x20 a.o"]

/-- C7 counterexample: the claim says that the single line
`.text 0x10000000 0x20 a.o` under a containing FLASH region both sets
FLASH's `.text` placement to `0x20` and sets `a.o`'s code counter to
`0x20`; in fact the run completes with `a.o` entirely absent from the
SourceAccount table (a line starting with `.` only opens a section and
feeds the region registry). -/
theorem header_line_credits_no_source :
    (runMap c7lines).isOk = true ∧
      lookupA (getOk (runMap c7lines)).file_list (str "a.o") = none := by decide

/-- C7 (amended): the classification rule holds as stated (prefix
`.text` → code, `.rodata` → rodata, `.data` → data, `.bss` → bss, the
prefixes `.comment`/`.debug`/`.ARM.attributes` → ignored entirely,
anything else → other); the example line `.text 0x10000000 0x20 a.o`
makes FLASH's `.text` placement `0x20` and opens section `.text` but
credits no SourceAccount — `a.o`'s code counter becomes `0x20` only
through a subsequent indented allocation record. -/
theorem classification_rule (f : SrcFile) (sz : Int) (sec : Line) :
    (startswith (str ".text") sec = true →
      SrcFile.add f sec sz = { f with code := f.code + sz }) ∧
      (startswith (str ".rodata") sec = true →
        SrcFile.add f sec sz = { f with rodata := f.rodata + sz }) ∧
      (startswith (str ".data") sec = true →
        SrcFile.add f sec sz = { f with data := f.data + sz }) ∧
      (startswith (str ".bss") sec = true →
        SrcFile.add f sec sz = { f with bss := f.bss + sz }) ∧
      ((startswith (str ".comment") sec || startswith (str ".debug") sec ||
        startswith (str ".ARM.attributes") sec) = true → SrcFile.add f sec sz = f) ∧
      (startswith (str ".text") sec = false → startswith (str ".rodata") sec = false →
        startswith (str ".data") sec = false → startswith (str ".bss") sec = false →
        startswith (str ".comment") sec = false → startswith (str ".debug") sec = false →
        startswith (str ".ARM.attributes") sec = false →
        SrcFile.add f sec sz = { f with etc := f.etc + sz }) ∧
      ((runMap c7lines).isOk = true ∧
        (find_mem (getOk (runMap c7lines)).mem_list (str "FLASH")).map
            (fun m => lookupA m.sections (str ".text")) =
          some (some ⟨0x20, 0x10000000⟩) ∧
        (getOk (runMap c7lines)).cur_sec = some (str ".text") ∧
        (getOk (runMap c7lines)).file_list = [] ∧
        (lookupA (getOk (runMap
            (c7lines ++ [str " .text 0x10000000 0x20 a.o"]))).file_list
          (str "a.o")).map SrcFile.code = some 0x20) := by
  refine ⟨?_, ?_, ?_, ?_, ?_, ?_, by decide⟩
  · intro h
    simp [SrcFile.add, h]
  · intro h
    simp [SrcFile.add, not_text_of_rodata sec h, h]
  · intro h
    simp [SrcFile.add, not_text_of_data sec h, not_rodata_of_data sec h, h]
  · intro h
    simp [SrcFile.add, not_text_of_bss sec h, not_rodata_of_bss sec h,
      not_data_of_bss sec h, h]
  · intro h
    obtain ⟨hT, hR, hD, hB⟩ := ignored_prefix_disjoint sec h
    simp [SrcFile.add, hT, hR, hD, hB, h]
  · intro hT hR hD hB hC hDb hA
    simp [SrcFile.add, hT, hR, hD, hB, hC, hDb, hA]

/-- Witness for C7's classification conjuncts at concrete section
names. -/
theorem classification_rule_witness :
    SrcFile.add SrcFile.init (str ".rodata.str1") 4 =
      { SrcFile.init with rodata := SrcFile.init.rodata + 4 } ∧
      SrcFile.add SrcFile.init (str ".stack") 8 =
        { SrcFile.init with etc := SrcFile.init.etc + 8 } :=
  ⟨(classification_rule SrcFile.init 4 (str ".rodata.str1")).2.1 (by decide),
    (classification_rule SrcFile.init 8 (str ".stack")).2.2.2.2.2.1 (by decide)
      (by decide) (by decide) (by decide) (by decide) (by decide) (by decide)⟩


